import Mathlib

/-!
Verification of the Horizon-Logger library (src/src/lib.rs).

The library is a process-local logging utility: an enumeration `LogLevel`
of five severities with a `color` display mapping, a `LogEntry` record,
a global history buffer (a vector of `LogEntry` guarded by a mutex,
capped at 1000 entries by evicting index 0 on overflow), a `log`
operation that prints a colored line and appends to the history when the
lock is acquired, and a `get_history` operation returning a clone of the
buffer (or the empty vector when the lock cannot be acquired).

We embed the data model and the operations shallowly: the mutex-guarded
shared vector becomes an explicit `List LogEntry` threaded through a step
function; the outcome of each lock acquisition (Ok vs poisoned Err)
becomes an explicit `Bool` parameter; the terminal colors of the
`colored` crate become a small inductive `Color` and a `ColoredString`
record of text, foreground and background.
-/

/-- Terminal colors used by the source (`colored` crate methods
`cyan`, `green`, `yellow`, `red`, `white`, `blue`, `purple`,
`on_red`). -/
inductive Color where
  | cyan
  | green
  | yellow
  | red
  | white
  | blue
  | purple
deriving DecidableEq, Repr

/-- A string with optional foreground and background color, mirroring
the `colored` crate's `ColoredString` as used by this library. -/
structure ColoredString where
  text : String
  fgcolor : Option Color
  bgcolor : Option Color
deriving DecidableEq, Repr

/-- Rust's `format!("{:^7}", s)` center-padding: pad `s` with spaces to
`width` characters, the extra space (for odd padding) going to the
right. -/
def centerPad (width : Nat) (s : String) : String :=
  let len := s.length
  if width ≤ len then s
  else
    let pad := width - len
    let left := pad / 2
    let right := pad - left
    String.mk (List.replicate left ' ') ++ s ++ String.mk (List.replicate right ' ')

/-- The five log levels of the source enum `LogLevel`, in declaration
order (`DEBUG`, `INFO`, `WARN`, `ERROR`, `CRITICAL`). -/
inductive LogLevel where
  | DEBUG
  | INFO
  | WARN
  | ERROR
  | CRITICAL
deriving DecidableEq, Repr, Fintype

/-- The Rust enum discriminant of each `LogLevel` variant: variants get
consecutive discriminants 0, 1, 2, 3, 4 in declaration order. -/
def LogLevel.discriminant : LogLevel → Nat
  | .DEBUG => 0
  | .INFO => 1
  | .WARN => 2
  | .ERROR => 3
  | .CRITICAL => 4

/-- Strict severity order on `LogLevel`, induced by the declaration
order of the variants (their discriminants). -/
def LogLevel.sevLt (a b : LogLevel) : Prop :=
  a.discriminant < b.discriminant

instance : DecidableRel LogLevel.sevLt := fun a b =>
  inferInstanceAs (Decidable (a.discriminant < b.discriminant))

/-- `LogLevel::color`: each severity maps to a 7-character centered
label with its fixed style.  `CRITICAL` is rendered `"CRIT"` with
`.on_red().white()`, i.e. white foreground on red background. -/
def LogLevel.color : LogLevel → ColoredString
  | .DEBUG => ⟨centerPad 7 "DEBUG", some Color.cyan, none⟩
  | .INFO => ⟨centerPad 7 "INFO", some Color.green, none⟩
  | .WARN => ⟨centerPad 7 "WARN", some Color.yellow, none⟩
  | .ERROR => ⟨centerPad 7 "ERROR", some Color.red, none⟩
  | .CRITICAL => ⟨centerPad 7 "CRIT", some Color.white, some Color.red⟩

/-- The source struct `LogEntry`: timestamp, level, component,
message. -/
structure LogEntry where
  timestamp : String
  level : LogLevel
  component : String
  message : String
deriving DecidableEq, Repr

/-- The arguments and captured environment of one `log` call: the level
and the caller-supplied component and message, plus the timestamp and
thread id captured inside `log` from the environment. -/
structure Call where
  level : LogLevel
  timestamp : String
  threadId : String
  component : String
  message : String
deriving DecidableEq, Repr

/-- The `LogEntry` constructed by `log` from one call (lib.rs lines
106-111). -/
def mkEntry (c : Call) : LogEntry :=
  ⟨c.timestamp, c.level, c.component, c.message⟩

/-- The history update of `log` (lib.rs lines 113-120): push the entry,
then if the length exceeds 1000 remove the element at index 0. -/
def logUpdate (history : List LogEntry) (entry : LogEntry) : List LogEntry :=
  let h := history ++ [entry]
  if 1000 < h.length then h.eraseIdx 0 else h

/-- The console line printed by `log` (lib.rs lines 97-103): white
timestamp, colored severity label, purple bracketed thread id, blue
bracketed component, unstyled message. -/
def formatLine (c : Call) : List ColoredString :=
  [ ⟨c.timestamp, some Color.white, none⟩,
    c.level.color,
    ⟨"[" ++ c.threadId ++ "]", some Color.purple, none⟩,
    ⟨"[" ++ c.component ++ "]", some Color.blue, none⟩,
    ⟨c.message, none, none⟩ ]

/-- `HorizonLogger::log`: given the outcome of the lock acquisition
(`lockOk = true` iff `LOG_HISTORY.lock()` returned `Ok`), the current
history and the call, produce the printed console line and the new
history.  The line is printed before the lock is taken; on lock failure
the history update is skipped silently. -/
def log (lockOk : Bool) (history : List LogEntry) (c : Call) :
    List ColoredString × List LogEntry :=
  (formatLine c, if lockOk then logUpdate history (mkEntry c) else history)

/-- `HorizonLogger::get_history`: clone the history when the lock is
acquired, return the empty vector (`unwrap_or_default`) otherwise. -/
def get_history (lockOk : Bool) (history : List LogEntry) : List LogEntry :=
  if lockOk then history else []

/-- One operation on the shared history: a `log` call (of any of the
five severities, via `debug`/`info`/`warn`/`error`/`critical`) or a
`get_history` call, each with the outcome of its lock acquisition. -/
inductive Op where
  | logOp (lockOk : Bool) (c : Call)
  | getHistoryOp (lockOk : Bool)

/-- Effect of one operation on the history buffer.  `get_history` only
reads; `log` updates the buffer exactly when its lock acquisition
succeeds. -/
def stepOp (h : List LogEntry) : Op → List LogEntry
  | Op.logOp lockOk c => if lockOk then logUpdate h (mkEntry c) else h
  | Op.getHistoryOp _ => h

/-- The history buffer after a sequence of operations, starting from the
initial empty history (`Lazy::new(|| Mutex::new(Vec::new()))`). -/
def runOps (ops : List Op) : List LogEntry :=
  ops.foldl stepOp []

/-- The history buffer after a sequence of `log` calls that all acquire
the lock, starting from the empty history. -/
def runLogs (calls : List Call) : List LogEntry :=
  calls.foldl (fun h c => logUpdate h (mkEntry c)) []

/-- The process state as `get_history` sees it: the history buffer and
whether the mutex is healthy (not poisoned). -/
structure LoggerState where
  history : List LogEntry
  lockOk : Bool
deriving DecidableEq

/-- `get_history` as a state transformer: it returns its snapshot (the
clone of the buffer, or `[]` when the lock is poisoned) and leaves the
process state as it was. -/
def get_history_st (s : LoggerState) : List LogEntry × LoggerState :=
  (if s.lockOk then s.history else [], s)

-- Basic facts about the history update.

/-- `logUpdate` keeps the length bound: from a history of at most 1000
entries, the updated history has at most 1000 entries. -/
theorem logUpdate_length_le (h : List LogEntry) (e : LogEntry)
    (hle : h.length ≤ 1000) : (logUpdate h e).length ≤ 1000 := by
  unfold logUpdate
  cases h with
  | nil => simp
  | cons a t =>
      simp only [List.cons_append, List.length_cons, List.length_append,
        List.length_singleton]
      split
      · simp only [List.eraseIdx_cons_zero, List.length_append,
          List.length_singleton]
        simpa using hle
      · simp only [List.length_cons, List.length_append, List.length_singleton]
        omega

/-- Any history reachable by a sequence of operations from a history of
at most 1000 entries has at most 1000 entries. -/
theorem foldl_stepOp_length_le (ops : List Op) (h : List LogEntry)
    (hle : h.length ≤ 1000) : (ops.foldl stepOp h).length ≤ 1000 := by
  induction ops generalizing h with
  | nil => simpa using hle
  | cons op rest ih =>
      simp only [List.foldl_cons]
      apply ih
      cases op with
      | logOp lockOk c =>
          cases lockOk with
          | false => simpa [stepOp] using hle
          | true => simpa [stepOp] using logUpdate_length_le h (mkEntry c) hle
      | getHistoryOp lockOk => simpa [stepOp] using hle

/-- Removing index 0 from an append whose left part is nonempty removes
the head of the left part. -/
theorem eraseIdx_zero_append {α : Type} (s t : List α) (hs : s ≠ []) :
    (s ++ t).eraseIdx 0 = s.tail ++ t := by
  cases s with
  | nil => exact absurd rfl hs
  | cons a s2 => rfl

/-- Closed form of the history after a sequence of successful `log`
calls: the entries of all calls, with the oldest `length - 1000`
evicted. -/
theorem runLogs_eq (calls : List Call) :
    runLogs calls = (calls.map mkEntry).drop (calls.length - 1000) := by
  induction calls using List.reverseRecOn with
  | nil => rfl
  | append_singleton l c ih =>
      have hstep : runLogs (l ++ [c]) = logUpdate (runLogs l) (mkEntry c) := by
        unfold runLogs
        rw [List.foldl_append]
        rfl
      rw [hstep, ih]
      have hm : (l.map mkEntry).length = l.length := List.length_map l mkEntry
      by_cases hn : l.length < 1000
      · have h0 : l.length - 1000 = 0 := Nat.sub_eq_zero_of_le (Nat.le_of_lt hn)
        have h1 : (l ++ [c]).length - 1000 = 0 := by
          simp only [List.length_append, List.length_singleton]
          omega
        rw [h0, h1, List.drop_zero, List.drop_zero]
        unfold logUpdate
        have hlen : ¬ 1000 < ((l.map mkEntry) ++ [mkEntry c]).length := by
          simp only [List.length_append, hm, List.length_singleton]
          omega
        simp only [hlen, if_false, List.map_append, List.map_cons, List.map_nil]
      · have hge : 1000 ≤ l.length := Nat.le_of_not_lt hn
        have hdlen : ((l.map mkEntry).drop (l.length - 1000)).length = 1000 := by
          rw [List.length_drop, hm]
          omega
        unfold logUpdate
        have hlen : 1000 <
            ((l.map mkEntry).drop (l.length - 1000) ++ [mkEntry c]).length := by
          simp only [List.length_append, hdlen, List.length_singleton]
          omega
        simp only [hlen, if_true]
        have hne : (l.map mkEntry).drop (l.length - 1000) ≠ [] := by
          intro hnil
          rw [hnil] at hdlen
          simp at hdlen
        rw [eraseIdx_zero_append _ _ hne, List.tail_drop]
        have h2 : (l ++ [c]).length - 1000 = (l.length - 1000) + 1 := by
          simp only [List.length_append, List.length_singleton]
          omega
        rw [h2, List.map_append, List.map_cons, List.map_nil,
          List.drop_append_of_le_length (by omega)]

/-- A concrete call used to instantiate universally quantified
statements. -/
def c0 : Call := ⟨LogLevel.DEBUG, "2024-01-01 00:00:00.000", "ThreadId(1)", "SYSTEM", "msg"⟩

/-- The entry built from `c0`. -/
def e0 : LogEntry := mkEntry c0

/-- Claim C1: after any sequence of operations (log calls of any
severity and `get_history` calls) the history buffer holds at most 1000
entries, and a `log` call whose append makes the length exceed 1000
removes exactly the record at index 0, bringing the length back to
1000. -/
theorem history_bounded_and_evicts_oldest :
    (∀ ops : List Op, (runOps ops).length ≤ 1000) ∧
    (∀ (h : List LogEntry) (e : LogEntry),
      1000 < (h ++ [e]).length →
        logUpdate h e = (h ++ [e]).eraseIdx 0 ∧
        (h.length ≤ 1000 → (logUpdate h e).length = 1000)) := by
  constructor
  · intro ops
    exact foldl_stepOp_length_le ops [] (by simp)
  · intro h e hgt
    constructor
    · simp only [logUpdate]
      rw [if_pos hgt]
    · intro hle
      have hlen : h.length = 1000 := by
        simp only [List.length_append, List.length_singleton] at hgt
        omega
      have hne : h ≠ [] := by
        intro hnil
        rw [hnil] at hlen
        simp at hlen
      simp only [logUpdate, hgt, if_true]
      rw [eraseIdx_zero_append h [e] hne]
      simp only [List.length_append, List.length_tail, List.length_singleton]
      omega

/-- Witness for C1 at a concrete input: one successful log call keeps
the bound, and appending to a full 1000-entry history yields exactly
1000 entries. -/
theorem history_bounded_and_evicts_oldest_witness :
    (runOps [Op.logOp true c0]).length ≤ 1000 ∧
    (logUpdate (List.replicate 1000 e0) e0).length = 1000 :=
  ⟨history_bounded_and_evicts_oldest.1 [Op.logOp true c0],
   (history_bounded_and_evicts_oldest.2 (List.replicate 1000 e0) e0
      (by simp only [List.length_append, List.length_replicate,
        List.length_singleton]; omega)).2
      (by simp only [List.length_replicate]; omega)⟩

/-- Claim C2: for every sequence of at most 1000 successful `log` calls
(any severities, components and messages, no validation or truncation),
`get_history` returns exactly one entry per call, in call order, with
the severity, component and message of each entry equal to the
corresponding call's arguments. -/
theorem history_le_1000_exact (calls : List Call)
    (hlen : calls.length ≤ 1000) :
    get_history true (runLogs calls) = calls.map mkEntry ∧
    (get_history true (runLogs calls)).length = calls.length ∧
    ∀ i : Nat, (get_history true (runLogs calls))[i]? =
      (calls[i]?).map mkEntry := by
  have hget : get_history true (runLogs calls) = calls.map mkEntry := by
    simp [get_history, runLogs_eq, Nat.sub_eq_zero_of_le hlen]
  refine ⟨hget, ?_, ?_⟩
  · rw [hget, List.length_map]
  · intro i
    rw [hget, List.getElem?_map]

/-- Witness for C2 at a concrete input: a single call is stored with its
exact fields. -/
theorem history_le_1000_exact_witness :
    get_history true (runLogs [c0]) = [c0].map mkEntry ∧
    (get_history true (runLogs [c0]))[0]? = ([c0][0]?).map mkEntry :=
  ⟨(history_le_1000_exact [c0] (by simp)).1,
   (history_le_1000_exact [c0] (by simp)).2.2 0⟩

/-- Claim C3: after more than 1000 successful `log` calls from a single
thread, `get_history` returns exactly 1000 entries: the entries of the
last 1000 calls in their original relative order, the oldest retained
being that of call number `N - 999` (index `N - 1000` from zero). -/
theorem history_gt_1000_last_entries (calls : List Call)
    (hlen : 1000 < calls.length) :
    (get_history true (runLogs calls)).length = 1000 ∧
    get_history true (runLogs calls) =
      (calls.map mkEntry).drop (calls.length - 1000) ∧
    (get_history true (runLogs calls))[0]? =
      (calls[calls.length - 1000]?).map mkEntry := by
  have hget : get_history true (runLogs calls) =
      (calls.map mkEntry).drop (calls.length - 1000) := by
    simp [get_history, runLogs_eq]
  refine ⟨?_, hget, ?_⟩
  · rw [hget, List.length_drop, List.length_map]
    omega
  · rw [hget, List.getElem?_drop, Nat.add_zero, List.getElem?_map]

/-- Witness for C3 at a concrete input: 1001 calls leave exactly 1000
entries, the first being the entry of the second call. -/
theorem history_gt_1000_last_entries_witness :
    (get_history true (runLogs (List.replicate 1001 c0))).length = 1000 :=
  (history_gt_1000_last_entries (List.replicate 1001 c0)
    (by simp only [List.length_replicate]; omega)).1

/-- Claim C4: the severity-to-display mapping is total and
deterministic; each of the five severities maps to its fixed
7-character centered label and fixed style (DEBUG cyan, INFO green,
WARN yellow, ERROR red, CRITICAL white on red), and the five
label/style pairs are pairwise distinct. -/
theorem severity_display_mapping :
    LogLevel.DEBUG.color = ⟨" DEBUG ", some Color.cyan, none⟩ ∧
    LogLevel.INFO.color = ⟨" INFO  ", some Color.green, none⟩ ∧
    LogLevel.WARN.color = ⟨" WARN  ", some Color.yellow, none⟩ ∧
    LogLevel.ERROR.color = ⟨" ERROR ", some Color.red, none⟩ ∧
    LogLevel.CRITICAL.color = ⟨" CRIT  ", some Color.white, some Color.red⟩ ∧
    (∀ l : LogLevel, (l.color).text.length = 7) ∧
    [LogLevel.DEBUG.color, LogLevel.INFO.color, LogLevel.WARN.color,
      LogLevel.ERROR.color, LogLevel.CRITICAL.color].Nodup := by
  decide

/-- Claim C5: `get_history` never fails: with the lock acquired it
returns the history contents themselves (a snapshot in insertion
order), and with the lock poisoned it returns the empty sequence. -/
theorem get_history_snapshot_or_empty :
    (∀ h : List LogEntry, get_history true h = h) ∧
    (∀ h : List LogEntry, get_history false h = []) :=
  ⟨fun _ => rfl, fun _ => rfl⟩

/-- Claim C6: a `log` call whose lock acquisition fails returns no
error, leaves the history unchanged, and still produces the same
console line as a successful call. -/
theorem log_lock_failure_print_only :
    ∀ (h : List LogEntry) (c : Call),
      (log false h c).2 = h ∧
      (log false h c).1 = (log true h c).1 ∧
      (log false h c).1 = formatLine c :=
  fun _ _ => ⟨rfl, rfl, rfl⟩

/-- Claim C7: reading the history is idempotent: two consecutive
`get_history` calls with no intervening `log` call return structurally
equal sequences. -/
theorem get_history_idempotent :
    ∀ s : LoggerState,
      (get_history_st (get_history_st s).2).1 = (get_history_st s).1 :=
  fun _ => rfl

/-- Claim C8: the severity order induced by the declaration order of
the `LogLevel` variants is a strict total order with
DEBUG < INFO < WARN < ERROR < CRITICAL. -/
theorem loglevel_total_order :
    (∀ a b : LogLevel, LogLevel.sevLt a b ∨ a = b ∨ LogLevel.sevLt b a) ∧
    (∀ a : LogLevel, ¬ LogLevel.sevLt a a) ∧
    (∀ a b c : LogLevel,
      LogLevel.sevLt a b → LogLevel.sevLt b c → LogLevel.sevLt a c) ∧
    LogLevel.sevLt LogLevel.DEBUG LogLevel.INFO ∧
    LogLevel.sevLt LogLevel.INFO LogLevel.WARN ∧
    LogLevel.sevLt LogLevel.WARN LogLevel.ERROR ∧
    LogLevel.sevLt LogLevel.ERROR LogLevel.CRITICAL := by
  decide

/-- Witness for C8 at a concrete input: transitivity applied to
DEBUG < INFO < WARN. -/
theorem loglevel_total_order_witness :
    LogLevel.sevLt LogLevel.DEBUG LogLevel.WARN :=
  loglevel_total_order.2.2.1 LogLevel.DEBUG LogLevel.INFO LogLevel.WARN
    (by decide) (by decide)

/-- Claim C9: for any interleaving of 2000 `log` calls (for example 10
threads each issuing 200 calls), after all calls complete `get_history`
returns exactly 1000 records, and every retained record is the entry of
some call that was actually made (its fields are those of one call,
never a mix of two). -/
theorem concurrent_calls_history (calls : List Call)
    (hlen : calls.length = 2000) :
    (get_history true (runLogs calls)).length = 1000 ∧
    ∀ e ∈ get_history true (runLogs calls), ∃ c ∈ calls, e = mkEntry c := by
  have hget : get_history true (runLogs calls) =
      (calls.map mkEntry).drop (calls.length - 1000) := by
    simp [get_history, runLogs_eq]
  constructor
  · rw [hget, List.length_drop, List.length_map, hlen]
  · intro e he
    rw [hget] at he
    have hmem : e ∈ calls.map mkEntry := List.mem_of_mem_drop he
    rcases List.mem_map.mp hmem with ⟨c, hc, hce⟩
    exact ⟨c, hc, hce.symm⟩

/-- Witness for C9 at a concrete input: 2000 calls leave exactly 1000
entries. -/
theorem concurrent_calls_history_witness :
    (get_history true (runLogs (List.replicate 2000 c0))).length = 1000 :=
  (concurrent_calls_history (List.replicate 2000 c0)
    (by simp only [List.length_replicate])).1

/-- Claim C10: `get_history` never modifies the history: whatever the
buffer contents and the lock state, the state after the call is the
state before it. -/
theorem get_history_frame :
    ∀ s : LoggerState,
      ((get_history_st s).2).history = s.history ∧ (get_history_st s).2 = s :=
  fun _ => ⟨rfl, rfl⟩
